import Mathlib

/-!
Verification development for the `extio` Go package: a shallow embedding of
its four adapters (ScannerWriter, MultiWriter, AsyncReader,
Broadcaster/BroadcasterReader) together with theorems about their behavior.

Bytes are modelled as `Nat`, byte slices as `List Nat`.  Go `error` values
are modelled by `Option Err` (`none` is the nil error).  Goroutine-based
code is modelled as deterministic state-passing functions; where the Go
code contains a `select` race, the modelled schedule is stated in the doc
comment of the corresponding definition.
-/

namespace Extio

/-- Error domain: the package sentinels (`ErrClosed`, `ErrAborted`), the
stdlib sentinels used by the code (`io.EOF`, `io.ErrUnexpectedEOF`,
`io.ErrShortBuffer`, `io.ErrShortWrite`) and opaque user errors returned
by callbacks, split functions, sources and sinks. -/
inductive Err where
  | closed
  | aborted
  | eof
  | unexpectedEOF
  | shortBuffer
  | shortWrite
  | user (n : Nat)
  deriving DecidableEq, Repr

/-- Result of one call to a `bufio.SplitFunc`: the advance count, the
optional token (`none` models a nil `[]byte`), and the optional error. -/
structure SplitResult where
  adv : Nat
  token : Option (List Nat)
  err : Option Err
  deriving DecidableEq, Repr

/-- A `bufio.SplitFunc`: data so far and the at-EOF flag. -/
abbrev SplitFunc : Type := List Nat → Bool → SplitResult

/-- The token callback handed to `NewScannerWriter`; returns an optional
fatal error. -/
abbrev TokenFunc : Type := List Nat → Option Err

/-- The mutable state of a `ScannerWriter` (`src/scanner_writer.go`).
`buf = []` models a nil `sc.buf`: the code only ever stores a non-empty
slice in `sc.buf`, so nil and empty coincide behaviorally. -/
structure ScannerWriter where
  buf : List Nat
  maxBufSize : Nat
  closed : Bool
  deriving DecidableEq, Repr

/-- `NewScannerWriter`: fresh state (nil buffer, open). -/
def NewScannerWriter (maxBufSize : Nat) : ScannerWriter :=
  ⟨[], maxBufSize, false⟩

/-- Result of a `ScannerWriter.Write` call: the returned byte count and
error, the sequence of tokens passed to the token callback during the
call, and the buffer left pending. -/
structure WriteRes where
  n : Nat
  err : Option Err
  tokens : List (List Nat)
  buf : List Nat
  deriving DecidableEq, Repr

/-- The `for len(data) > 0` loop of `ScannerWriter.Write`, fuel-indexed.
`none` models divergence of the Go loop (a split function that emits a
token without advancing loops forever).  Each return site mirrors the Go
code: a split error or token-callback error returns `(0, err)` with the
pending buffer left nil (it was cleared on entry to `Write`); an
incomplete tail longer than `maxBufSize` returns `io.ErrShortBuffer`;
otherwise the tail is retained and the full `dataLen` reported. -/
def writeLoop (f : SplitFunc) (g : TokenFunc) (maxB dataLen : Nat) :
    Nat → List Nat → List (List Nat) → Option WriteRes
  | 0, _, _ => none
  | fuel + 1, data, acc =>
    if data.isEmpty then some ⟨dataLen, none, acc, []⟩
    else
      let r := f data false
      match r.err with
      | some e => some ⟨0, some e, acc, []⟩
      | none =>
        match r.token with
        | none =>
          if r.adv = 0 then
            if maxB < data.length then some ⟨0, some Err.shortBuffer, acc, []⟩
            else some ⟨dataLen, none, acc, data⟩
          else writeLoop f g maxB dataLen fuel (data.drop r.adv) acc
        | some t =>
          match g t with
          | some e => some ⟨0, some e, acc ++ [t], []⟩
          | none => writeLoop f g maxB dataLen fuel (data.drop r.adv) (acc ++ [t])

/-- `ScannerWriter.Write`.  On a closed instance returns `ErrClosed`
without touching the state.  Otherwise prepends the pending buffer to
`data` and runs the scan loop; the fuel `(buf ++ data).length + 1` is
enough for every terminating Go execution, since every loop iteration
that continues consumes at least one byte unless the split function emits
without advancing (in which case Go diverges and this returns `none`). -/
def ScannerWriter.write (f : SplitFunc) (g : TokenFunc) (sw : ScannerWriter)
    (data : List Nat) : Option WriteRes :=
  if sw.closed then some ⟨0, some Err.closed, [], sw.buf⟩
  else
    let full := sw.buf ++ data
    writeLoop f g sw.maxBufSize data.length (full.length + 1) full []

/-- State after a write: the loop's resulting pending buffer replaces
`sw.buf`; `closed` and `maxBufSize` are untouched. -/
def ScannerWriter.afterWrite (sw : ScannerWriter) (r : WriteRes) : ScannerWriter :=
  { sw with buf := r.buf }

/-- Result of `Flush` or `Close`: error, tokens delivered, new state. -/
structure FlushRes where
  err : Option Err
  tokens : List (List Nat)
  sw : ScannerWriter
  deriving DecidableEq, Repr

/-- `ScannerWriter.Flush`: on a closed instance returns `ErrClosed`; a
nil/empty pending buffer is a no-op; otherwise the split function is
invoked once with the at-EOF flag.  A split error leaves the buffer in
place; otherwise the buffer is cleared and a non-empty token (note: Go
checks `len(token) > 0` here, unlike `Write`) is passed to the callback,
whose error is propagated. -/
def ScannerWriter.flush (f : SplitFunc) (g : TokenFunc) (sw : ScannerWriter) : FlushRes :=
  if sw.closed then ⟨some Err.closed, [], sw⟩
  else if sw.buf.isEmpty then ⟨none, [], sw⟩
  else
    let r := f sw.buf true
    match r.err with
    | some e => ⟨some e, [], sw⟩
    | none =>
      match r.token with
      | some t =>
        if t.isEmpty then ⟨none, [], { sw with buf := [] }⟩
        else
          match g t with
          | some e => ⟨some e, [t], { sw with buf := [] }⟩
          | none => ⟨none, [t], { sw with buf := [] }⟩
      | none => ⟨none, [], { sw with buf := [] }⟩

/-- `ScannerWriter.Close`: `ErrClosed` when already closed; otherwise
runs `Flush`, propagating its failure without transitioning to closed,
and transitions to closed only on flush success. -/
def ScannerWriter.close (f : SplitFunc) (g : TokenFunc) (sw : ScannerWriter) : FlushRes :=
  if sw.closed then ⟨some Err.closed, [], sw⟩
  else
    let r := sw.flush f g
    match r.err with
    | some _ => r
    | none => ⟨none, r.tokens, { r.sw with closed := true }⟩

/-- Runs a sequence of `Write` calls, threading the state and collecting
all tokens delivered to the callback; `none` if some write diverges. -/
def runWrites (f : SplitFunc) (g : TokenFunc) :
    ScannerWriter → List (List Nat) → Option (List (List Nat) × ScannerWriter)
  | sw, [] => some ([], sw)
  | sw, c :: cs =>
    match sw.write f g c with
    | none => none
    | some r =>
      match runWrites f g (sw.afterWrite r) cs with
      | none => none
      | some (ts, sw') => some (r.tokens ++ ts, sw')

/-- The complete token sequence produced by writing `chunks` in order to
a fresh `ScannerWriter` (max buffer size `maxB`) and then calling
`Flush`. -/
def scanAll (f : SplitFunc) (g : TokenFunc) (maxB : Nat)
    (chunks : List (List Nat)) : Option (List (List Nat)) :=
  match runWrites f g (NewScannerWriter maxB) chunks with
  | none => none
  | some (ts, sw) => some (ts ++ (sw.flush f g).tokens)

/-- Proof-side specification of the scan loop: the tokens emitted and the
incomplete tail retained when scanning `d` (never at EOF), assuming no
errors, no overflow and a split function that advances whenever it emits.
Used to relate chunked and one-shot executions of `writeLoop`. -/
def scanSpec (f : SplitFunc) (d : List Nat) : List (List Nat) × List Nat :=
  if hd : d.isEmpty then ([], [])
  else
    if h : 0 < (f d false).adv then
      ((match (f d false).token with
        | some t => t :: (scanSpec f (d.drop (f d false).adv)).1
        | none => (scanSpec f (d.drop (f d false).adv)).1),
       (scanSpec f (d.drop (f d false).adv)).2)
    else ([], d)
termination_by d.length
decreasing_by
  all_goals
    have hlen : d.length ≠ 0 := by
      simpa [List.isEmpty_iff, List.length_eq_zero] using hd
    have h2 := List.length_drop (f d false).adv d
    omega

/-- A split function that consumes all available data as one token.  A
legal `bufio.SplitFunc` (it never advances past the end and never
errors), but its tokenization depends on how the input is chunked. -/
def splitConsumeAll : SplitFunc := fun d _ => ⟨d.length, some d, none⟩

/-- A split function that emits each byte as its own token (like
`bufio.ScanBytes`). -/
def splitByte : SplitFunc := fun d _ =>
  match d with
  | [] => ⟨0, none, none⟩
  | a :: _ => ⟨1, some [a], none⟩

/-- A split function that never finds a token (always requests more
data). -/
def splitStuck : SplitFunc := fun _ _ => ⟨0, none, none⟩

/-- A split function that requests more data until the at-EOF call, at
which point it returns everything as one token. -/
def splitAllAtEOF : SplitFunc := fun d atEOF =>
  if atEOF then ⟨d.length, some d, none⟩ else ⟨0, none, none⟩

/-- A split function that always fails. -/
def splitFail : SplitFunc := fun _ _ => ⟨0, none, some (Err.user 1)⟩

/-- A token callback that always succeeds. -/
def tokOk : TokenFunc := fun _ => none

/-- A token callback that always fails. -/
def tokFail : TokenFunc := fun _ => some (Err.user 0)

/-- One segment produced by the background goroutine of `AsyncReader`
(`src/async_reader.go`): the bytes read by `io.ReadFull` and the error
it returned (`none`, `io.EOF`, `io.ErrUnexpectedEOF`, or a foreign
source error). -/
abbrev Segment : Type := List Nat × Option Err

/-- The sequence of segments the goroutine spawned by `AsyncReader.Start`
pushes on the channel for a source holding `src`, with segment size
`sz`: full `sz`-byte reads with nil error, then either a final partial
read carrying `io.ErrUnexpectedEOF`, or an empty read carrying `io.EOF`
when the source length is an exact multiple of `sz`.  The goroutine
exits after pushing the first segment with a non-nil error.  (`sz = 0`
makes the Go goroutine loop forever pushing empty segments; that case is
mapped to `[]` here and excluded by the positivity hypotheses of the
theorems.) -/
def arSegments (sz : Nat) (src : List Nat) : List Segment :=
  if h0 : sz = 0 then []
  else if h : src.length < sz then
    [(src, some (if src.isEmpty then Err.eof else Err.unexpectedEOF))]
  else (src.take sz, none) :: arSegments sz (src.drop sz)
termination_by src.length
decreasing_by
  have h2 := List.length_drop sz src
  omega

/-- Consumer-side state of an `AsyncReader`: the reassembly buffer
`ar.buf` and the queue of segments not yet received.  The channel is
closed once the queue is exhausted, since the goroutine closes it after
its terminal segment. -/
structure ARState where
  buf : List Nat
  pending : List Segment
  deriving DecidableEq, Repr

/-- The code after the drain loop of `AsyncReader.Read`: surplus beyond
`n` requested bytes stays buffered; a non-empty buffer of at most `n`
bytes is delivered whole; an empty buffer yields `(0, io.EOF)`. -/
def arDeliver (n : Nat) (buf : List Nat) (pending : List Segment) :
    List Nat × Option Err × ARState :=
  if n < buf.length then (buf.take n, none, ⟨buf.drop n, pending⟩)
  else if buf.isEmpty then ([], some Err.eof, ⟨[], pending⟩)
  else (buf, none, ⟨[], pending⟩)

/-- `AsyncReader.Read` with a destination of length `n`: the
`for len(ar.buf) < len(b)` drain loop followed by delivery.  A queued
segment whose error is neither nil nor `io.EOF` nor
`io.ErrUnexpectedEOF` is returned immediately as `(0, err)` without its
bytes being appended; otherwise its bytes are appended and draining
continues; when the queue is exhausted (channel closed) the loop breaks
and delivery runs.  The abort branch of the `select` is not taken: the
modelled reader is never closed. -/
def arRead (n : Nat) : List Nat → List Segment → List Nat × Option Err × ARState
  | buf, pending =>
    if n ≤ buf.length then arDeliver n buf pending
    else
      match pending with
      | [] => arDeliver n buf []
      | (bs, e) :: rest =>
        match e with
        | none => arRead n (buf ++ bs) rest
        | some er =>
          if er = Err.eof ∨ er = Err.unexpectedEOF then arRead n (buf ++ bs) rest
          else ([], some er, ⟨buf, rest⟩)
termination_by buf pending => pending.length

/-- The state of an `AsyncReader` right after `Start` on a source `src`
with segment size `sz`: empty reassembly buffer, all segments queued. -/
def arStart (sz : Nat) (src : List Nat) : ARState :=
  ⟨[], arSegments sz src⟩

/-- Repeatedly calls `Read` with an `m`-byte destination until it
reports `io.EOF`, concatenating the bytes delivered.  `none` when the
fuel runs out or a foreign source error surfaces. -/
def arReadAll (m : Nat) : Nat → ARState → Option (List Nat)
  | 0, _ => none
  | fuel + 1, st =>
    match arRead m st.buf st.pending with
    | (bs, none, st') => (arReadAll m fuel st').map (fun rest => bs ++ rest)
    | (_, some Err.eof, _) => some []
    | (_, some _, _) => none

/-- All bytes still queued in a list of segments. -/
def segBytes (pending : List Segment) : List Nat :=
  (pending.map Prod.fst).flatten

/-- A sink handed to `NewMultiWriter` (`src/unnamed/part_000`), modelled
extensionally: `accept` gives the `(n, err)` result of the sink's
`Write` for a payload, `closeErr` the result of its `Close` (nil when
the sink is a plain `io.Writer`).  History-independent sink behavior
suffices for the claims considered. -/
structure MWSink where
  accept : List Nat → Nat × Option Err
  closeErr : Option Err

/-- One worker goroutine spawned by `MultiWriter.init`, run to
completion over the payloads of its queue after `Close` has closed it:
each payload is written to the sink in order; a sink error makes the
worker report it and stop consuming; a short write (`n < len(data)`)
makes it report `io.ErrShortWrite` and stop; after draining the queue
the deferred handler closes the sink and reports its close error.
Returns (payloads the sink accepted in full, first error reported).
When both a write error and a close error occur the Go code would
deadlock on the 1-slot error channel; the model keeps the write
error. -/
def mwWorkerRun (s : MWSink) : List (List Nat) → List (List Nat) × Option Err
  | [] => ([], s.closeErr)
  | p :: ps =>
    match s.accept p with
    | (_, some e) => ([], some e)
    | (n, none) =>
      if n < p.length then ([], some Err.shortWrite)
      else
        match mwWorkerRun s ps with
        | (r, e) => (p :: r, e)

/-- Result of `MultiWriter.Close`: an ordinary return value, or a Go
panic (from closing an already-closed channel). -/
inductive CloseRes where
  | ok : Option Err → CloseRes
  | panic : CloseRes
  deriving DecidableEq, Repr

/-- Deterministic state of a `MultiWriter`, under the schedule in which
every enqueue in `Write` wins its `select` race against a worker error
(always possible while the queues have spare capacity, e.g. when the
workers have not run yet): the payloads enqueued so far (identical for
every queue), the `inited` and `closed` flags, and whether the worker
queues and the error channel have already been closed by `Close`. -/
structure MWState where
  sinks : List MWSink
  queued : List (List Nat)
  inited : Bool
  closed : Bool
  chansClosed : Bool
  errChanClosed : Bool

/-- `NewMultiWriter`: no goroutines yet, nothing queued, open. -/
def NewMultiWriter (sinks : List MWSink) : MWState :=
  ⟨sinks, [], false, false, false, false⟩

/-- `MultiWriter.Write` under the enqueue-wins schedule: `ErrClosed`
after `Close`; otherwise `init` runs lazily and the payload goes on
every worker's queue, reporting the full length. -/
def MWState.write (st : MWState) (p : List Nat) : Nat × Option Err × MWState :=
  if st.closed then (0, some Err.closed, st)
  else (p.length, none, { st with inited := true, queued := st.queued ++ [p] })

/-- A sequence of `MultiWriter.Write` calls. -/
def mwWriteAll (st : MWState) (ps : List (List Nat)) : MWState :=
  ps.foldl (fun s p => (s.write p).2.2) st

/-- `MultiWriter.Close`: sets `closed` unconditionally (the flag is
consulted only by `Write`), and when `inited` closes every worker
queue — a Go panic when they are already closed and at least one worker
exists — waits for the workers to drain, closes the error channel — a
panic when it is already closed — and returns the first error a worker
reported, or nil (a receive from the closed empty channel).  When never
`inited` it returns nil immediately. -/
def MWState.close (st : MWState) : CloseRes × MWState :=
  let st1 := { st with closed := true }
  if st1.inited then
    if st1.chansClosed ∧ st1.sinks.isEmpty = false then (CloseRes.panic, st1)
    else
      let st2 := { st1 with chansClosed := true }
      if st2.errChanClosed then (CloseRes.panic, st2)
      else
        let st3 := { st2 with errChanClosed := true }
        (CloseRes.ok
          (((st3.sinks.map fun s => (mwWorkerRun s st3.queued).2).filterMap id).head?),
         st3)
  else (CloseRes.ok none, st1)

/-- The payloads each sink has received in full once its worker has
drained the closed queue — the steady state `Close` waits for before
returning. -/
def MWState.received (st : MWState) : List (List (List Nat)) :=
  st.sinks.map fun s => (mwWorkerRun s st.queued).1

/-- A sink that accepts every write in full and closes cleanly. -/
def sinkOk : MWSink := ⟨fun p => (p.length, none), none⟩

/-- A sink whose writes always fail (accepting nothing). -/
def sinkFail : MWSink := ⟨fun _ => (0, some (Err.user 7)), none⟩

/-- A `BroadcasterReader` (`src/unnamed/part_001`): its data queue (and
whether `Broadcast`'s deferred handler has closed it), the contents of
its two-slot error channel (an entry `none` models a nil error value
sent on the channel) and whether that channel is closed, its private
reassembly buffer, and `br.last`.  The `shutdown` channel is not
modelled: the modelled readers never detach. -/
structure BReader where
  dataQ : List (List Nat)
  dataClosed : Bool
  errQ : List (Option Err)
  errClosed : Bool
  buf : List Nat
  last : Option Err
  deriving DecidableEq, Repr

/-- A freshly registered reader, as `Broadcaster.NewReader` creates
it. -/
def NewBReader : BReader := ⟨[], false, [], false, [], none⟩

/-- The deferred handler at the end of `Broadcaster.Broadcast`: closes
every registered reader's data channel and, unless the pump's read
error variable equals `ErrAborted`, sends that error value — possibly
nil — into every reader's error slot. -/
def deferBroadcast (errVar : Option Err) (rs : List BReader) : List BReader :=
  rs.map fun r =>
    { r with dataClosed := true,
             errQ := r.errQ ++
               (if errVar = some Err.aborted then [] else [errVar]) }

/-- The chunks `Broadcast`'s pump enqueues for a source holding `src`
when its full-read loop fills `sz`-byte buffers: full chunks, then a
final partial chunk (the terminal read error can arrive together with
remaining bytes); nothing for an empty source. -/
def bSegments (sz : Nat) (src : List Nat) : List (List Nat) :=
  if h0 : sz = 0 then []
  else if h : src.length < sz then
    (if src.isEmpty then [] else [src])
  else src.take sz :: bSegments sz (src.drop sz)
termination_by src.length
decreasing_by
  have h2 := List.length_drop sz src
  omega

/-- `Broadcaster.Broadcast`, deterministically.  The source is modelled
as the byte list `src` with terminal read error `srcErr` (`Err.eof` for
a clean end).  Each iteration performs a full read of up to `sz` bytes
(a final partial read carries the terminal error), enqueues the chunk
on every registered reader's queue, and on the terminal error runs the
deferred handler and returns nil for `io.EOF` or the error itself
otherwise.  Each enqueue races the abort channel in a `select`; the
model resolves the race abort-first, so when `aborted` is set (Abort
was called before `Broadcast` began), the first enqueue attempt — which
exists only when a chunk was read and at least one reader is
registered — returns `ErrAborted` after the deferred handler runs with
the current (non-aborted) error variable.  Reader queues are modelled
unbounded: capacity only blocks the pump until consumers drain, which
the deterministic schedule elides.  (`sz = 0` would make the Go pump
spin forever; the model maps it to the terminal case and the theorems
exclude it.) -/
def broadcastGo (aborted : Bool) (srcErr : Err) (sz : Nat) :
    Nat → List Nat → List BReader → Option (Option Err × List BReader)
  | 0, _, _ => none
  | _fuel + 1, src, rs =>
    if src.isEmpty ∨ sz = 0 then
      some (if srcErr = Err.eof then none else some srcErr,
            deferBroadcast (some srcErr) rs)
    else
      if aborted ∧ rs.isEmpty = false then
        some (some Err.aborted,
              deferBroadcast (if src.length < sz then some srcErr else none) rs)
      else
        if src.length < sz then
          some (if srcErr = Err.eof then none else some srcErr,
                deferBroadcast (some srcErr)
                  (rs.map fun r => { r with dataQ := r.dataQ ++ [src.take sz] }))
        else
          broadcastGo aborted srcErr sz _fuel (src.drop sz)
            (rs.map fun r => { r with dataQ := r.dataQ ++ [src.take sz] })

/-- The error-slot consultation and delivery code after the drain loop
of `BroadcasterReader.Read`: surplus beyond the `n` requested bytes
stays buffered; a non-empty buffer of at most `n` bytes is delivered
whole; with an empty buffer the error slot is polled without blocking
(`br.last` receives the next queued value, or nil when the slot channel
is closed, or keeps its value when nothing is available) and
`(0, br.last)` is returned. -/
def brDeliver (n : Nat) (br : BReader) : List Nat × Option Err × BReader :=
  if n < br.buf.length then
    (br.buf.take n, none, { br with buf := br.buf.drop n })
  else if br.buf.isEmpty = false then (br.buf, none, { br with buf := [] })
  else
    match br.errQ with
    | e :: rest => ([], e, { br with errQ := rest, last := e })
    | [] =>
      if br.errClosed then ([], none, { br with last := none })
      else ([], br.last, br)

/-- The `for len(br.buf) < len(b)` drain loop of
`BroadcasterReader.Read`, with the abort-vs-data `select` race resolved
abort-first: when abort is set, a read that must consult the queue
returns `ErrAborted` and records it in `br.last`; otherwise queued
chunks are appended to the reassembly buffer until it satisfies the
request or the queue closes.  `none` models a read blocked on an open
empty queue. -/
def brReadLoop (aborted : Bool) (n : Nat) (br : BReader) :
    Option (List Nat × Option Err × BReader) :=
  if n ≤ br.buf.length then some (brDeliver n br)
  else if aborted then
    some ([], some Err.aborted, { br with last := some Err.aborted })
  else
    match h : br.dataQ with
    | p :: rest =>
      brReadLoop aborted n { br with buf := br.buf ++ p, dataQ := rest }
    | [] => if br.dataClosed then some (brDeliver n br) else none
termination_by br.dataQ.length
decreasing_by
  simp [h]

/-- `BroadcasterReader.Read` with an `n`-byte destination: returns
`br.last` immediately when it is `ErrClosed` or `ErrAborted`, otherwise
runs the drain loop and delivery. -/
def brRead (aborted : Bool) (n : Nat) (br : BReader) :
    Option (List Nat × Option Err × BReader) :=
  if br.last = some Err.closed ∨ br.last = some Err.aborted then
    some ([], br.last, br)
  else brReadLoop aborted n br

theorem scanSpec_nil (f : SplitFunc) : scanSpec f [] = ([], []) := by
  rw [scanSpec.eq_def]
  simp

theorem scanSpec_pos (f : SplitFunc) (d : List Nat) (hd : d ≠ [])
    (h : 0 < (f d false).adv) :
    scanSpec f d =
      ((match (f d false).token with
        | some t => t :: (scanSpec f (d.drop (f d false).adv)).1
        | none => (scanSpec f (d.drop (f d false).adv)).1),
       (scanSpec f (d.drop (f d false).adv)).2) := by
  rw [scanSpec.eq_def]
  simp [hd, h]

theorem scanSpec_stuck (f : SplitFunc) (d : List Nat) (hd : d ≠ [])
    (h : ¬ 0 < (f d false).adv) :
    scanSpec f d = ([], d) := by
  rw [scanSpec.eq_def]
  simp [hd, h]

theorem scanSpec_snd_aux (f : SplitFunc) :
    ∀ n d, d.length ≤ n →
      scanSpec f ((scanSpec f d).2) = ([], (scanSpec f d).2) ∧
      (scanSpec f d).2.length ≤ d.length := by
  intro n
  induction n with
  | zero =>
    intro d hd
    have : d = [] := by
      cases d with
      | nil => rfl
      | cons a l => simp at hd
    subst this
    simp [scanSpec_nil]
  | succ n ih =>
    intro d hd
    by_cases hde : d = []
    · subst hde
      simp [scanSpec_nil]
    · by_cases hadv : 0 < (f d false).adv
      · rw [scanSpec_pos f d hde hadv]
        dsimp only
        have hlen : (d.drop (f d false).adv).length ≤ n := by
          have h2 := List.length_drop (f d false).adv d
          have h3 : d.length ≠ 0 := by simp [hde]
          omega
        have := ih (d.drop (f d false).adv) hlen
        refine ⟨this.1, ?_⟩
        have h2 := List.length_drop (f d false).adv d
        omega
      · rw [scanSpec_stuck f d hde hadv]
        exact ⟨scanSpec_stuck f d hde hadv, le_refl _⟩

theorem scanSpec_snd_fix (f : SplitFunc) (d : List Nat) :
    scanSpec f ((scanSpec f d).2) = ([], (scanSpec f d).2) :=
  (scanSpec_snd_aux f d.length d (le_refl _)).1

theorem scanSpec_snd_length (f : SplitFunc) (d : List Nat) :
    (scanSpec f d).2.length ≤ d.length :=
  (scanSpec_snd_aux f d.length d (le_refl _)).2

theorem scanSpec_append_aux (f : SplitFunc)
    (hadv : ∀ d b, (f d b).adv ≤ d.length)
    (hstable : ∀ d e, 0 < (f d false).adv → f (d ++ e) false = f d false) :
    ∀ n d e, d.length ≤ n →
      scanSpec f (d ++ e) =
        ((scanSpec f d).1 ++ (scanSpec f ((scanSpec f d).2 ++ e)).1,
         (scanSpec f ((scanSpec f d).2 ++ e)).2) := by
  intro n
  induction n with
  | zero =>
    intro d e hd
    have : d = [] := by
      cases d with
      | nil => rfl
      | cons a l => simp at hd
    subst this
    simp [scanSpec_nil]
  | succ n ih =>
    intro d e hd
    by_cases hde : d = []
    · subst hde
      simp [scanSpec_nil]
    · by_cases hpos : 0 < (f d false).adv
      · have hst := hstable d e hpos
        have hde2 : d ++ e ≠ [] := by simp [hde]
        have hpos2 : 0 < (f (d ++ e) false).adv := by rw [hst]; exact hpos
        rw [scanSpec_pos f (d ++ e) hde2 hpos2, scanSpec_pos f d hde hpos]
        rw [hst]
        have hdrop : (d ++ e).drop (f d false).adv = d.drop (f d false).adv ++ e :=
          List.drop_append_of_le_length (hadv d false)
        rw [hdrop]
        have hlen : (d.drop (f d false).adv).length ≤ n := by
          have h2 := List.length_drop (f d false).adv d
          have h3 : d.length ≠ 0 := by simp [hde]
          omega
        rw [ih (d.drop (f d false).adv) e hlen]
        cases (f d false).token with
        | none => simp
        | some t => simp
      · rw [scanSpec_stuck f d hde hpos]
        simp

theorem scanSpec_append (f : SplitFunc)
    (hadv : ∀ d b, (f d b).adv ≤ d.length)
    (hstable : ∀ d e, 0 < (f d false).adv → f (d ++ e) false = f d false)
    (d e : List Nat) :
    scanSpec f (d ++ e) =
      ((scanSpec f d).1 ++ (scanSpec f ((scanSpec f d).2 ++ e)).1,
       (scanSpec f ((scanSpec f d).2 ++ e)).2) :=
  scanSpec_append_aux f hadv hstable d.length d e (le_refl _)

theorem writeLoop_eq_scanSpec (f : SplitFunc) (g : TokenFunc)
    (hprog : ∀ d, (f d false).token.isSome → 0 < (f d false).adv)
    (hnoerr : ∀ d, (f d false).err = none)
    (htok : ∀ t, g t = none)
    (maxB dataLen : Nat) :
    ∀ fuel data acc, data.length ≤ maxB → data.length < fuel →
      writeLoop f g maxB dataLen fuel data acc =
        some ⟨dataLen, none, acc ++ (scanSpec f data).1, (scanSpec f data).2⟩ := by
  intro fuel
  induction fuel with
  | zero =>
    intro data acc hmax hfu
    omega
  | succ fuel ih =>
    intro data acc hmax hfu
    by_cases hde : data = []
    · subst hde
      simp [writeLoop, scanSpec_nil]
    · have hne : data.isEmpty = false := by simp [hde]
      have hlen0 : data.length ≠ 0 := by simp [hde]
      cases htoken : (f data false).token with
      | none =>
        by_cases hadv : (f data false).adv = 0
        · have hov : ¬ maxB < data.length := by omega
          rw [scanSpec_stuck f data hde (by omega)]
          simp [writeLoop, hne, hnoerr data, htoken, hadv, hov]
        · have hpos : 0 < (f data false).adv := Nat.pos_of_ne_zero hadv
          rw [scanSpec_pos f data hde hpos]
          have hd2 : (data.drop (f data false).adv).length ≤ maxB := by
            have h2 := List.length_drop (f data false).adv data
            omega
          have hf2 : (data.drop (f data false).adv).length < fuel := by
            have h2 := List.length_drop (f data false).adv data
            omega
          simp only [writeLoop, hne, hnoerr data, htoken, hadv, if_false,
            Bool.false_eq_true]
          rw [ih (data.drop (f data false).adv) acc hd2 hf2]
      | some t =>
        have hpos : 0 < (f data false).adv := by
          apply hprog
          simp [htoken]
        rw [scanSpec_pos f data hde hpos]
        have hd2 : (data.drop (f data false).adv).length ≤ maxB := by
          have h2 := List.length_drop (f data false).adv data
          omega
        have hf2 : (data.drop (f data false).adv).length < fuel := by
          have h2 := List.length_drop (f data false).adv data
          omega
        simp only [writeLoop, hne, hnoerr data, htoken, htok t]
        rw [ih (data.drop (f data false).adv) (acc ++ [t]) hd2 hf2]
        simp [htoken]

theorem write_eq_scanSpec (f : SplitFunc) (g : TokenFunc)
    (hprog : ∀ d, (f d false).token.isSome → 0 < (f d false).adv)
    (hnoerr : ∀ d, (f d false).err = none)
    (htok : ∀ t, g t = none)
    (sw : ScannerWriter) (data : List Nat)
    (hopen : sw.closed = false)
    (hmax : (sw.buf ++ data).length ≤ sw.maxBufSize) :
    sw.write f g data =
      some ⟨data.length, none, (scanSpec f (sw.buf ++ data)).1,
            (scanSpec f (sw.buf ++ data)).2⟩ := by
  unfold ScannerWriter.write
  rw [hopen]
  simp only [Bool.false_eq_true, if_false]
  rw [writeLoop_eq_scanSpec f g hprog hnoerr htok sw.maxBufSize data.length
    ((sw.buf ++ data).length + 1) (sw.buf ++ data) [] hmax (by omega)]
  simp

theorem runWrites_eq (f : SplitFunc) (g : TokenFunc)
    (hadv : ∀ d b, (f d b).adv ≤ d.length)
    (hstable : ∀ d e, 0 < (f d false).adv → f (d ++ e) false = f d false)
    (hprog : ∀ d, (f d false).token.isSome → 0 < (f d false).adv)
    (hnoerr : ∀ d, (f d false).err = none)
    (htok : ∀ t, g t = none) :
    ∀ chunks (sw : ScannerWriter), sw.closed = false →
      scanSpec f sw.buf = ([], sw.buf) →
      sw.buf.length + chunks.flatten.length ≤ sw.maxBufSize →
      runWrites f g sw chunks =
        some ((scanSpec f (sw.buf ++ chunks.flatten)).1,
              { sw with buf := (scanSpec f (sw.buf ++ chunks.flatten)).2 }) := by
  intro chunks
  induction chunks with
  | nil =>
    intro sw hopen hfix hbud
    simp only [List.flatten_nil, List.append_nil, runWrites]
    rw [hfix]
  | cons c cs ih =>
    intro sw hopen hfix hbud
    have hjoin : (c :: cs).flatten = c ++ cs.flatten := rfl
    have hlen : (sw.buf ++ c).length ≤ sw.maxBufSize := by
      have h1 : (c :: cs).flatten.length = c.length + cs.flatten.length := by
        rw [hjoin]; simp
      simp only [List.length_append]
      omega
    rw [runWrites]
    rw [write_eq_scanSpec f g hprog hnoerr htok sw c hopen hlen]
    dsimp only
    have hfix2 : scanSpec f ((ScannerWriter.afterWrite sw
        ⟨c.length, none, (scanSpec f (sw.buf ++ c)).1, (scanSpec f (sw.buf ++ c)).2⟩).buf) =
        ([], (ScannerWriter.afterWrite sw
        ⟨c.length, none, (scanSpec f (sw.buf ++ c)).1, (scanSpec f (sw.buf ++ c)).2⟩).buf) := by
      exact scanSpec_snd_fix f (sw.buf ++ c)
    have hbud2 : (ScannerWriter.afterWrite sw
        ⟨c.length, none, (scanSpec f (sw.buf ++ c)).1, (scanSpec f (sw.buf ++ c)).2⟩).buf.length
        + cs.flatten.length ≤ (ScannerWriter.afterWrite sw
        ⟨c.length, none, (scanSpec f (sw.buf ++ c)).1, (scanSpec f (sw.buf ++ c)).2⟩).maxBufSize := by
      have h1 := scanSpec_snd_length f (sw.buf ++ c)
      have h2 : (c :: cs).flatten.length = c.length + cs.flatten.length := by
        rw [hjoin]; simp
      simp only [List.length_append] at h1
      simp only [ScannerWriter.afterWrite]
      omega
    have hrec := ih (ScannerWriter.afterWrite sw
        ⟨c.length, none, (scanSpec f (sw.buf ++ c)).1, (scanSpec f (sw.buf ++ c)).2⟩)
      hopen hfix2 hbud2
    rw [hrec]
    simp only [ScannerWriter.afterWrite]
    have happ := scanSpec_append f hadv hstable (sw.buf ++ c) cs.flatten
    rw [hjoin, ← List.append_assoc]
    rw [happ]

/-- C1 counterexample: the claimed chunk-boundary independence fails for
the boundary function that consumes all available data as one token.
Writing `[0]` then `[1]` yields tokens `[[0]], [[1]]`; writing the whole
input `[0, 1]` at once yields the single token `[[0, 1]]`. -/
theorem scanner_chunk_dependence_cex :
    List.flatten [[0], [1]] = [0, 1] ∧
    scanAll splitConsumeAll tokOk 10 [[0], [1]] = some [[0], [1]] ∧
    scanAll splitConsumeAll tokOk 10 [[0, 1]] = some [[0, 1]] ∧
    scanAll splitConsumeAll tokOk 10 [[0], [1]] ≠
      scanAll splitConsumeAll tokOk 10 [[0, 1]] := by
  decide

/-- C1 (amended): for boundary functions that advance within bounds,
whose committed decisions (nonzero advance) are unchanged by appending
more data, that advance whenever they emit a token, that never error on
non-final calls, with an error-free token callback, and with a maximum
buffer size at least the total input length, the token sequence produced
by `ScannerWriter` across arbitrarily-chunked writes followed by `Flush`
equals the sequence produced by writing the whole input at once. -/
theorem scanner_chunk_independence (f : SplitFunc) (g : TokenFunc)
    (maxB : Nat) (chunks : List (List Nat))
    (hadv : ∀ d b, (f d b).adv ≤ d.length)
    (hstable : ∀ d e, 0 < (f d false).adv → f (d ++ e) false = f d false)
    (hprog : ∀ d, (f d false).token.isSome → 0 < (f d false).adv)
    (hnoerr : ∀ d, (f d false).err = none)
    (htok : ∀ t, g t = none)
    (hbud : chunks.flatten.length ≤ maxB) :
    scanAll f g maxB chunks = scanAll f g maxB [chunks.flatten] := by
  unfold scanAll
  have hfix0 : scanSpec f (NewScannerWriter maxB).buf = ([], (NewScannerWriter maxB).buf) := by
    simpa [NewScannerWriter] using scanSpec_nil f
  have h1 := runWrites_eq f g hadv hstable hprog hnoerr htok chunks
    (NewScannerWriter maxB) rfl hfix0 (by simpa [NewScannerWriter] using hbud)
  have h2 := runWrites_eq f g hadv hstable hprog hnoerr htok [chunks.flatten]
    (NewScannerWriter maxB) rfl hfix0 (by simpa [NewScannerWriter] using hbud)
  rw [h1, h2]
  simp

/-- Witness for C1: the byte-at-a-time splitter satisfies every
hypothesis, and chunked and one-shot scans of `[3, 4, 5]` agree. -/
theorem scanner_chunk_independence_witness :
    scanAll splitByte tokOk 10 [[3], [4, 5]] =
      scanAll splitByte tokOk 10 [List.flatten [[3], [4, 5]]] :=
  scanner_chunk_independence splitByte tokOk 10 [[3], [4, 5]]
    (by intro d b; cases d <;> simp [splitByte])
    (by
      intro d e h
      cases d with
      | nil => simp [splitByte] at h
      | cons a l => simp [splitByte])
    (by
      intro d h
      cases d with
      | nil => simp [splitByte] at h
      | cons a l => simp [splitByte])
    (by intro d; cases d <;> simp [splitByte])
    (by intro t; rfl)
    (by decide)

theorem writeLoop_result (f : SplitFunc) (g : TokenFunc) (maxB dl : Nat) :
    ∀ fuel data acc r, writeLoop f g maxB dl fuel data acc = some r →
      (r.n = dl ∧ r.err = none) ∨
      (r.n = 0 ∧ r.buf = [] ∧ ∃ e, r.err = some e ∧
        (e = Err.shortBuffer ∨ (∃ d, (f d false).err = some e) ∨
          (∃ t, g t = some e))) := by
  intro fuel
  induction fuel with
  | zero =>
    intro data acc r h
    simp [writeLoop] at h
  | succ fuel ih =>
    intro data acc r h
    by_cases hde : data.isEmpty
    · simp only [writeLoop, hde, if_true] at h
      cases h
      left
      exact ⟨rfl, rfl⟩
    · simp only [writeLoop, hde, if_false, Bool.false_eq_true] at h
      cases hE : (f data false).err with
      | some e =>
        rw [hE] at h
        dsimp only at h
        cases h
        right
        exact ⟨rfl, rfl, e, rfl, Or.inr (Or.inl ⟨data, hE⟩)⟩
      | none =>
        rw [hE] at h
        dsimp only at h
        cases hT : (f data false).token with
        | none =>
          rw [hT] at h
          dsimp only at h
          by_cases hadv : (f data false).adv = 0
          · rw [if_pos hadv] at h
            by_cases hov : maxB < data.length
            · rw [if_pos hov] at h
              cases h
              right
              exact ⟨rfl, rfl, Err.shortBuffer, rfl, Or.inl rfl⟩
            · rw [if_neg hov] at h
              cases h
              left
              exact ⟨rfl, rfl⟩
          · rw [if_neg hadv] at h
            exact ih (data.drop (f data false).adv) acc r h
        | some t =>
          rw [hT] at h
          dsimp only at h
          cases hG : g t with
          | some e =>
            rw [hG] at h
            dsimp only at h
            cases h
            right
            exact ⟨rfl, rfl, e, rfl, Or.inr (Or.inr ⟨t, hG⟩)⟩
          | none =>
            rw [hG] at h
            dsimp only at h
            exact ih (data.drop (f data false).adv) (acc ++ [t]) r h

/-- C2: on an open `ScannerWriter`, a terminating `Write` either accepts
the whole input with a nil error, or accepts nothing and returns an error
that is the buffer-overflow sentinel, an error of the boundary function,
or an error of the token callback, leaving the pending buffer empty; and
whenever the boundary function reports no advance, no token and no error
while the unconsumed remainder exceeds the maximum buffer size, the scan
loop returns zero with `io.ErrShortBuffer` and retains no bytes. -/
theorem scanner_write_dichotomy :
    (∀ (f : SplitFunc) (g : TokenFunc) (sw : ScannerWriter) (data : List Nat)
        (r : WriteRes),
      sw.closed = false → sw.write f g data = some r →
      (r.n = data.length ∧ r.err = none) ∨
      (r.n = 0 ∧ r.buf = [] ∧ ∃ e, r.err = some e ∧
        (e = Err.shortBuffer ∨ (∃ d, (f d false).err = some e) ∨
          (∃ t, g t = some e)))) ∧
    (∀ (f : SplitFunc) (g : TokenFunc) (maxB dl fuel : Nat) (data : List Nat)
        (acc : List (List Nat)),
      0 < fuel → f data false = ⟨0, none, none⟩ → maxB < data.length →
      writeLoop f g maxB dl fuel data acc = some ⟨0, some Err.shortBuffer, acc, []⟩) := by
  constructor
  · intro f g sw data r hopen hw
    unfold ScannerWriter.write at hw
    rw [hopen] at hw
    simp only [Bool.false_eq_true, if_false] at hw
    exact writeLoop_result f g sw.maxBufSize data.length _ _ _ r hw
  · intro f g maxB dl fuel data acc hfu hsplit hov
    cases fuel with
    | zero => omega
    | succ fuel =>
      have hde : data.isEmpty = false := by
        cases data with
        | nil => simp at hov
        | cons a l => rfl
      simp only [writeLoop, hde, if_false, Bool.false_eq_true, hsplit, if_pos rfl]
      simp [hov]

/-- Witness for C2: a successful single-token write satisfies the left
disjunct, and a concrete stuck-splitter overflow hits the loop clause. -/
theorem scanner_write_dichotomy_witness :
    writeLoop splitStuck tokOk 1 2 3 [5, 6] [] =
      some ⟨0, some Err.shortBuffer, [], []⟩ ∧
    ((((⟨1, none, [[3]], []⟩ : WriteRes).n = ([3] : List Nat).length ∧
        (⟨1, none, [[3]], []⟩ : WriteRes).err = none) ∨
      ((⟨1, none, [[3]], []⟩ : WriteRes).n = 0 ∧
        (⟨1, none, [[3]], []⟩ : WriteRes).buf = [] ∧
        ∃ e, (⟨1, none, [[3]], []⟩ : WriteRes).err = some e ∧
          (e = Err.shortBuffer ∨ (∃ d, (splitByte d false).err = some e) ∨
            (∃ t, tokOk t = some e))))) :=
  ⟨scanner_write_dichotomy.2 splitStuck tokOk 1 2 3 [5, 6] [] (by decide)
      (by decide) (by decide),
   scanner_write_dichotomy.1 splitByte tokOk (NewScannerWriter 10) [3]
      ⟨1, none, [[3]], []⟩ rfl (by decide)⟩

/-- C9: when a terminating `Write` on an open `ScannerWriter` returns an
error (necessarily from the boundary function, the token callback, or
overflow, since the instance is open), the pending buffer is left empty
and the instance stays open, so an immediately following `Flush` is a
no-op returning nil and `Close` succeeds, emitting nothing further. -/
theorem scanner_write_error_state (f : SplitFunc) (g : TokenFunc)
    (sw : ScannerWriter) (data : List Nat) (r : WriteRes)
    (hopen : sw.closed = false) (hw : sw.write f g data = some r)
    (herr : r.err.isSome) :
    r.buf = [] ∧
    (sw.afterWrite r).closed = false ∧
    (sw.afterWrite r).flush f g = ⟨none, [], sw.afterWrite r⟩ ∧
    (sw.afterWrite r).close f g =
      ⟨none, [], { sw.afterWrite r with closed := true }⟩ := by
  have hw' : writeLoop f g sw.maxBufSize data.length
      ((sw.buf ++ data).length + 1) (sw.buf ++ data) [] = some r := by
    unfold ScannerWriter.write at hw
    rw [hopen] at hw
    simpa using hw
  have hres := writeLoop_result f g sw.maxBufSize data.length _ _ _ r hw'
  cases hres with
  | inl hl =>
    rw [hl.2] at herr
    simp at herr
  | inr hr =>
    obtain ⟨hn, hbuf, _⟩ := hr
    have hcl : (sw.afterWrite r).closed = false := hopen
    have hbe : (sw.afterWrite r).buf.isEmpty = true := by
      simp [ScannerWriter.afterWrite, hbuf]
    have hfl : (sw.afterWrite r).flush f g = ⟨none, [], sw.afterWrite r⟩ := by
      unfold ScannerWriter.flush
      rw [hcl, hbe]
      simp
    refine ⟨hbuf, hcl, hfl, ?_⟩
    unfold ScannerWriter.close
    rw [hcl]
    simp only [Bool.false_eq_true, if_false]
    rw [hfl]

/-- Witness for C9: a token-callback failure on `Write` leaves an empty
buffer, and the subsequent `Flush` and `Close` succeed. -/
theorem scanner_write_error_state_witness :
    (⟨0, some (Err.user 0), [[5]], []⟩ : WriteRes).buf = [] ∧
    ((NewScannerWriter 10).afterWrite ⟨0, some (Err.user 0), [[5]], []⟩).closed = false ∧
    ((NewScannerWriter 10).afterWrite ⟨0, some (Err.user 0), [[5]], []⟩).flush
        splitByte tokFail =
      ⟨none, [], (NewScannerWriter 10).afterWrite ⟨0, some (Err.user 0), [[5]], []⟩⟩ ∧
    ((NewScannerWriter 10).afterWrite ⟨0, some (Err.user 0), [[5]], []⟩).close
        splitByte tokFail =
      ⟨none, [],
        { (NewScannerWriter 10).afterWrite ⟨0, some (Err.user 0), [[5]], []⟩ with
            closed := true }⟩ :=
  scanner_write_error_state splitByte tokFail (NewScannerWriter 10) [5]
    ⟨0, some (Err.user 0), [[5]], []⟩ rfl (by decide) (by decide)

/-- C3 counterexample: after a `Close` whose flush failed in the token
callback, the pending buffer has been cleared, so a second `Close` does
not surface the same failure again: it succeeds and closes the instance.
Pending buffer `[0]`, a splitter that returns everything as a token at
EOF, and an always-failing token callback. -/
theorem scanner_close_retry_cex :
    (ScannerWriter.close splitAllAtEOF tokFail ⟨[0], 10, false⟩).err =
      some (Err.user 0) ∧
    (ScannerWriter.close splitAllAtEOF tokFail ⟨[0], 10, false⟩).sw.closed = false ∧
    (ScannerWriter.close splitAllAtEOF tokFail
        (ScannerWriter.close splitAllAtEOF tokFail ⟨[0], 10, false⟩).sw).err = none := by
  decide

/-- C3 (amended): `Close` on a closed instance (like `Write` and `Flush`)
fails with the closed error; on an open instance it runs `Flush` and on
success transitions to closed; if the flush fails, `Close` returns that
error without closing — and a second `Close` surfaces the same failure
again exactly when the failure came from the boundary function (the
pending buffer is retained), while after a token-callback failure the
pending buffer was already cleared, so a second `Close` succeeds and
closes the instance. -/
theorem scanner_close_semantics :
    (∀ (f : SplitFunc) (g : TokenFunc) (sw : ScannerWriter), sw.closed = true →
      sw.close f g = ⟨some Err.closed, [], sw⟩ ∧
      sw.flush f g = ⟨some Err.closed, [], sw⟩ ∧
      (∀ data, sw.write f g data = some ⟨0, some Err.closed, [], sw.buf⟩)) ∧
    (∀ (f : SplitFunc) (g : TokenFunc) (sw : ScannerWriter),
      sw.closed = false → (sw.flush f g).err = none →
      sw.close f g =
        ⟨none, (sw.flush f g).tokens, { (sw.flush f g).sw with closed := true }⟩) ∧
    (∀ (f : SplitFunc) (g : TokenFunc) (sw : ScannerWriter) (e : Err),
      sw.closed = false → sw.buf.isEmpty = false → (f sw.buf true).err = some e →
      sw.close f g = ⟨some e, [], sw⟩ ∧
      (sw.close f g).sw.close f g = ⟨some e, [], sw⟩) ∧
    (∀ (f : SplitFunc) (g : TokenFunc) (sw : ScannerWriter) (t : List Nat) (e : Err),
      sw.closed = false → sw.buf.isEmpty = false →
      (f sw.buf true).err = none → (f sw.buf true).token = some t →
      t.isEmpty = false → g t = some e →
      sw.close f g = ⟨some e, [t], { sw with buf := [] }⟩ ∧
      ({ sw with buf := [] } : ScannerWriter).close f g =
        ⟨none, [], { sw with buf := [], closed := true }⟩) := by
  refine ⟨?_, ?_, ?_, ?_⟩
  · intro f g sw hcl
    refine ⟨?_, ?_, ?_⟩
    · unfold ScannerWriter.close
      rw [hcl]
      simp
    · unfold ScannerWriter.flush
      rw [hcl]
      simp
    · intro data
      unfold ScannerWriter.write
      rw [hcl]
      simp
  · intro f g sw hop hfe
    unfold ScannerWriter.close
    rw [hop]
    simp only [Bool.false_eq_true, if_false]
    cases hE : ((sw.flush f g).err) with
    | some e => rw [hE] at hfe; simp at hfe
    | none =>
      have : sw.flush f g = ⟨none, (sw.flush f g).tokens, (sw.flush f g).sw⟩ := by
        cases hx : sw.flush f g
        rw [hx] at hE
        simp_all
      rw [this]
  · intro f g sw e hop hbe hspl
    have hfl : sw.flush f g = ⟨some e, [], sw⟩ := by
      unfold ScannerWriter.flush
      rw [hop, hbe]
      simp only [Bool.false_eq_true, if_false]
      rw [hspl]
    have hcl : sw.close f g = ⟨some e, [], sw⟩ := by
      unfold ScannerWriter.close
      rw [hop]
      simp only [Bool.false_eq_true, if_false]
      rw [hfl]
    refine ⟨hcl, ?_⟩
    rw [hcl]
    exact hcl
  · intro f g sw t e hop hbe hspl htk hte hge
    have hfl : sw.flush f g = ⟨some e, [t], { sw with buf := [] }⟩ := by
      unfold ScannerWriter.flush
      rw [hop, hbe]
      simp only [Bool.false_eq_true, if_false]
      rw [hspl]
      dsimp only
      rw [htk]
      dsimp only
      rw [hte]
      simp only [Bool.false_eq_true, if_false]
      rw [hge]
    have hcl : sw.close f g = ⟨some e, [t], { sw with buf := [] }⟩ := by
      unfold ScannerWriter.close
      rw [hop]
      simp only [Bool.false_eq_true, if_false]
      rw [hfl]
      simp [hop]
    refine ⟨hcl, ?_⟩
    unfold ScannerWriter.close ScannerWriter.flush
    simp [hop]

/-- Witness for C3: concrete instances exercising all four clauses of the
close-semantics theorem. -/
theorem scanner_close_semantics_witness :
    ScannerWriter.close splitByte tokOk ⟨[], 5, true⟩ =
      ⟨some Err.closed, [], ⟨[], 5, true⟩⟩ ∧
    ScannerWriter.close splitByte tokOk ⟨[], 5, false⟩ = ⟨none, [], ⟨[], 5, true⟩⟩ ∧
    ScannerWriter.close splitFail tokOk ⟨[0], 5, false⟩ =
      ⟨some (Err.user 1), [], ⟨[0], 5, false⟩⟩ ∧
    ScannerWriter.close splitAllAtEOF tokFail ⟨[0], 5, false⟩ =
      ⟨some (Err.user 0), [[0]], ⟨[], 5, false⟩⟩ := by
  refine ⟨?_, ?_, ?_, ?_⟩
  · exact (scanner_close_semantics.1 splitByte tokOk ⟨[], 5, true⟩ rfl).1
  · exact scanner_close_semantics.2.1 splitByte tokOk ⟨[], 5, false⟩ rfl rfl
  · exact (scanner_close_semantics.2.2.1 splitFail tokOk ⟨[0], 5, false⟩
      (Err.user 1) rfl rfl rfl).1
  · exact (scanner_close_semantics.2.2.2 splitAllAtEOF tokFail ⟨[0], 5, false⟩
      [0] (Err.user 0) rfl rfl rfl rfl rfl rfl).1

theorem segBytes_nil : segBytes [] = [] := rfl

theorem segBytes_cons (bs : List Nat) (e : Option Err) (rest : List Segment) :
    segBytes ((bs, e) :: rest) = bs ++ segBytes rest := by
  simp [segBytes]

theorem arRead_progress (m : Nat) (hm : 0 < m) :
    ∀ pending buf,
      (∀ p ∈ pending, p.2 = none ∨ p.2 = some Err.eof ∨ p.2 = some Err.unexpectedEOF) →
      (∃ out st', arRead m buf pending = (out, none, st') ∧ out ≠ [] ∧
        out ++ st'.buf ++ segBytes st'.pending = buf ++ segBytes pending ∧
        (∀ p ∈ st'.pending,
          p.2 = none ∨ p.2 = some Err.eof ∨ p.2 = some Err.unexpectedEOF)) ∨
      (arRead m buf pending = ([], some Err.eof, ⟨[], []⟩) ∧
        buf ++ segBytes pending = []) := by
  intro pending
  induction pending with
  | nil =>
    intro buf hwf
    have hr : arRead m buf [] = arDeliver m buf [] := by
      rw [arRead.eq_def]
      dsimp only
      by_cases h : m ≤ buf.length
      · rw [if_pos h]
      · rw [if_neg h]
    by_cases h1 : m < buf.length
    · left
      refine ⟨buf.take m, ⟨buf.drop m, []⟩, ?_, ?_, ?_, ?_⟩
      · rw [hr]
        unfold arDeliver
        rw [if_pos h1]
      · have : (buf.take m).length = m := by
          rw [List.length_take]
          omega
        intro hx
        rw [hx] at this
        simp at this
        omega
      · simp [segBytes_nil]
      · intro p hp
        simp at hp
    · by_cases h2 : buf.isEmpty
      · right
        constructor
        · rw [hr]
          unfold arDeliver
          rw [if_neg h1, if_pos h2]
        · have : buf = [] := by simpa [List.isEmpty_iff] using h2
          simp [this, segBytes_nil]
      · left
        refine ⟨buf, ⟨[], []⟩, ?_, ?_, ?_, ?_⟩
        · rw [hr]
          unfold arDeliver
          rw [if_neg h1, if_neg h2]
        · simpa [List.isEmpty_iff] using h2
        · simp [segBytes_nil]
        · intro p hp
          simp at hp
  | cons seg rest ih =>
    intro buf hwf
    obtain ⟨bs, e⟩ := seg
    by_cases hlen : m ≤ buf.length
    · have hbe : buf.isEmpty = false := by
        cases buf with
        | nil => simp at hlen; omega
        | cons a l => rfl
      have hr : arRead m buf ((bs, e) :: rest) = arDeliver m buf ((bs, e) :: rest) := by
        rw [arRead.eq_def]
        dsimp only
        rw [if_pos hlen]
      by_cases h1 : m < buf.length
      · left
        refine ⟨buf.take m, ⟨buf.drop m, (bs, e) :: rest⟩, ?_, ?_, ?_, hwf⟩
        · rw [hr]
          unfold arDeliver
          rw [if_pos h1]
        · have : (buf.take m).length = m := by
            rw [List.length_take]
            omega
          intro hx
          rw [hx] at this
          simp at this
          omega
        · simp
      · left
        refine ⟨buf, ⟨[], (bs, e) :: rest⟩, ?_, ?_, ?_, hwf⟩
        · rw [hr]
          unfold arDeliver
          rw [if_neg h1, if_neg (by simp [hbe])]
        · simpa [List.isEmpty_iff] using hbe
        · simp
    · have hwfh := hwf (bs, e) (by simp)
      have hwft : ∀ p ∈ rest,
          p.2 = none ∨ p.2 = some Err.eof ∨ p.2 = some Err.unexpectedEOF := by
        intro p hp
        exact hwf p (by simp [hp])
      have hr : arRead m buf ((bs, e) :: rest) = arRead m (buf ++ bs) rest := by
        rw [arRead.eq_def]
        dsimp only
        rw [if_neg hlen]
        rcases hwfh with h | h | h <;> simp at h <;> rw [h] <;> simp
      rcases ih (buf ++ bs) hwft with ⟨out, st', heq, hne, hcons, hwf'⟩ | ⟨heq, hz⟩
      · left
        refine ⟨out, st', by rw [hr, heq], hne, ?_, hwf'⟩
        rw [hcons, segBytes_cons]
        simp
      · right
        refine ⟨by rw [hr, heq], ?_⟩
        rw [segBytes_cons]
        rw [List.append_assoc] at hz
        simpa using hz

theorem arReadAll_spec (m : Nat) (hm : 0 < m) :
    ∀ fuel buf pending,
      (∀ p ∈ pending, p.2 = none ∨ p.2 = some Err.eof ∨ p.2 = some Err.unexpectedEOF) →
      buf.length + (segBytes pending).length < fuel →
      arReadAll m fuel ⟨buf, pending⟩ = some (buf ++ segBytes pending) := by
  intro fuel
  induction fuel with
  | zero =>
    intro buf pending hwf hme
    omega
  | succ fuel ih =>
    intro buf pending hwf hme
    rcases arRead_progress m hm pending buf hwf with
      ⟨out, st', heq, hne, hcons, hwf'⟩ | ⟨heq, hz⟩
    · rw [arReadAll]
      dsimp only
      rw [heq]
      dsimp only
      have hlen : st'.buf.length + (segBytes st'.pending).length < fuel := by
        have h1 : out.length + (st'.buf.length + (segBytes st'.pending).length) =
            buf.length + (segBytes pending).length := by
          have := congrArg List.length hcons
          simpa using this
        have h2 : 0 < out.length := by
          cases out with
          | nil => exact absurd rfl hne
          | cons a l => simp
        omega
      have := ih st'.buf st'.pending hwf' hlen
      have hst : (⟨st'.buf, st'.pending⟩ : ARState) = st' := rfl
      rw [hst] at this
      rw [this]
      simp only [Option.map_some']
      simp only [← List.append_assoc]
      rw [hcons]
    · rw [arReadAll]
      dsimp only
      rw [heq]
      dsimp only
      rw [hz]

theorem arSegments_wf (sz : Nat) :
    ∀ n src, src.length ≤ n → ∀ p ∈ arSegments sz src,
      p.2 = none ∨ p.2 = some Err.eof ∨ p.2 = some Err.unexpectedEOF := by
  intro n
  induction n with
  | zero =>
    intro src hsrc p hp
    have : src = [] := by
      cases src with
      | nil => rfl
      | cons a l => simp at hsrc
    subst this
    rw [arSegments.eq_def] at hp
    by_cases h0 : sz = 0
    · simp [h0] at hp
    · simp only [h0, dif_neg] at hp
      by_cases h : ([] : List Nat).length < sz
      · simp only [dif_pos h] at hp
        simp at hp
        subst hp
        simp
      · simp at h
        omega
  | succ n ih =>
    intro src hsrc p hp
    rw [arSegments.eq_def] at hp
    by_cases h0 : sz = 0
    · simp [h0] at hp
    · simp only [h0, dif_neg] at hp
      by_cases h : src.length < sz
      · simp only [dif_pos h] at hp
        simp at hp
        subst hp
        by_cases he : src = []
        · simp [he]
        · simp [he]
      · simp only [dif_neg h] at hp
        simp at hp
        rcases hp with hp | hp
        · subst hp
          simp
        · have hlen : (src.drop sz).length ≤ n := by
            have h2 := List.length_drop sz src
            simp at h
            omega
          exact ih (src.drop sz) hlen p hp

theorem arSegments_bytes (sz : Nat) (hsz : sz ≠ 0) :
    ∀ n src, src.length ≤ n → segBytes (arSegments sz src) = src := by
  intro n
  induction n with
  | zero =>
    intro src hsrc
    have : src = [] := by
      cases src with
      | nil => rfl
      | cons a l => simp at hsrc
    subst this
    rw [arSegments.eq_def]
    rw [dif_neg hsz]
    rw [dif_pos (by simpa using Nat.pos_of_ne_zero hsz)]
    simp [segBytes]
  | succ n ih =>
    intro src hsrc
    rw [arSegments.eq_def]
    rw [dif_neg hsz]
    by_cases h : src.length < sz
    · rw [dif_pos h]
      simp [segBytes]
    · rw [dif_neg h]
      rw [segBytes_cons]
      have hlen : (src.drop sz).length ≤ n := by
        have h2 := List.length_drop sz src
        simp at h
        have : sz ≠ 0 := hsz
        omega
      rw [ih (src.drop sz) hlen]
      exact List.take_append_drop sz src

/-- C6: for every finite source, positive segment size and positive
per-call destination size, draining an `AsyncReader` after `Start` until
it reports `io.EOF` reproduces the source byte-for-byte — including
sources shorter than one segment and sources whose length is an exact
multiple of the segment size (the queue capacity does not appear: it
only throttles the producer and cannot change what is delivered). -/
theorem asyncreader_roundtrip (src : List Nat) (sz m fuel : Nat)
    (hsz : 0 < sz) (hm : 0 < m) (hfu : src.length < fuel) :
    arReadAll m fuel (arStart sz src) = some src := by
  have hwf := arSegments_wf sz src.length src (le_refl _)
  have hb := arSegments_bytes sz (by omega) src.length src (le_refl _)
  have hme : ([] : List Nat).length + (segBytes (arSegments sz src)).length < fuel := by
    rw [hb]
    simpa using hfu
  have := arReadAll_spec m hm fuel [] (arSegments sz src) hwf hme
  rw [hb] at this
  simpa [arStart] using this

/-- Witness for C6: a 10-byte source with segment size 4 (partial final
segment) read 3 bytes at a time. -/
theorem asyncreader_roundtrip_witness :
    arReadAll 3 11 (arStart 4 [1, 2, 3, 4, 5, 6, 7, 8, 9, 10]) =
      some [1, 2, 3, 4, 5, 6, 7, 8, 9, 10] :=
  asyncreader_roundtrip [1, 2, 3, 4, 5, 6, 7, 8, 9, 10] 4 3 11
    (by decide) (by decide) (by decide)

/-- C10: `AsyncReader.Read` with a zero-length destination and an empty
reassembly buffer skips the drain loop entirely (`0 < 0` is false) and
returns `(0, io.EOF)` at once, leaving every queued segment in place —
even when the source has not ended. -/
theorem asyncreader_zero_len_read (pending : List Segment) :
    arRead 0 [] pending = ([], some Err.eof, ⟨[], pending⟩) := by
  rw [arRead.eq_def]
  dsimp only
  rw [if_pos (by simp)]
  unfold arDeliver
  simp

/-- Witness for C10: a queue still holding a data segment. -/
theorem asyncreader_zero_len_read_witness :
    arRead 0 [] [([1, 2], none)] =
      ([], some Err.eof, ⟨[], [([1, 2], none)]⟩) :=
  asyncreader_zero_len_read [([1, 2], none)]

theorem mwWorkerRun_ok (s : MWSink) :
    ∀ q, (mwWorkerRun s q).2 = none → (mwWorkerRun s q).1 = q := by
  intro q
  induction q with
  | nil => intro _; rfl
  | cons p ps ih =>
    intro h
    rw [mwWorkerRun] at h ⊢
    cases hacc : s.accept p with
    | mk n e =>
      rw [hacc] at h
      cases e with
      | some er => simp at h
      | none =>
        dsimp only at h ⊢
        by_cases hn : n < p.length
        · rw [if_pos hn] at h
          simp at h
        · rw [if_neg hn] at h ⊢
          dsimp only at h ⊢
          rw [ih h]

theorem mwWriteAll_open (ps : List (List Nat)) :
    ∀ st : MWState, st.closed = false →
      mwWriteAll st ps =
        { st with inited := (st.inited || !ps.isEmpty),
                  queued := st.queued ++ ps } := by
  induction ps with
  | nil =>
    intro st hop
    show st = _
    simp
  | cons p rest ih =>
    intro st hop
    show mwWriteAll ((st.write p).2.2) rest = _
    rw [MWState.write]
    rw [if_neg (by simp [hop])]
    rw [ih { st with inited := true, queued := st.queued ++ [p] } hop]
    simp

theorem MWClose_first (sinks : List MWSink) (q : List (List Nat)) (b : Bool) :
    MWState.close ⟨sinks, q, true, b, false, false⟩ =
      (CloseRes.ok (((sinks.map fun s => (mwWorkerRun s q).2).filterMap id).head?),
       ⟨sinks, q, true, true, true, true⟩) := by
  rw [MWState.close]
  simp

theorem MWClose_again_panic (sinks : List MWSink) (q : List (List Nat)) (b : Bool) :
    (MWState.close ⟨sinks, q, true, b, true, true⟩).1 = CloseRes.panic := by
  rw [MWState.close]
  by_cases hsk : sinks.isEmpty = false
  · simp [hsk]
  · simp [hsk]

theorem MWClose_uninited (sinks : List MWSink) (q : List (List Nat)) (b c e : Bool) :
    MWState.close ⟨sinks, q, false, b, c, e⟩ =
      (CloseRes.ok none, ⟨sinks, q, false, true, c, e⟩) := by
  rw [MWState.close]
  simp

/-- C4 counterexample: a `MultiWriter` over one sink whose writes fail.
Under the enqueue-wins schedule both `Write` calls succeed (they return
the full length with nil error), `Close` is called and returns — with
the worker's error — yet the sink has received none of the payloads, so
the claim as stated (conditioning only on `Close` returning, not on it
returning nil) is false. -/
theorem multiwriter_delivery_cex :
    ((NewMultiWriter [sinkFail]).write [1]).1 = 1 ∧
    ((NewMultiWriter [sinkFail]).write [1]).2.1 = none ∧
    ((mwWriteAll (NewMultiWriter [sinkFail]) [[1], [2]]).close).1 =
      CloseRes.ok (some (Err.user 7)) ∧
    (mwWriteAll (NewMultiWriter [sinkFail]) [[1], [2]]).received = [[]] ∧
    ([[]] : List (List (List Nat))) ≠ [[[1], [2]]] := by
  refine ⟨rfl, rfl, rfl, rfl, by decide⟩

/-- C4 (amended): every `Write` before `Close` succeeds with the full
byte count under the enqueue-wins schedule, and when `Close` then
returns *without error*, every sink has received exactly the payloads
written, byte-identical and in write order, none duplicated or
dropped. -/
theorem multiwriter_delivery_ok (sinks : List MWSink) (ps : List (List Nat)) :
    (∀ (st : MWState) (p : List Nat), st.closed = false →
      st.write p = (p.length, none,
        { st with inited := true, queued := st.queued ++ [p] })) ∧
    (((mwWriteAll (NewMultiWriter sinks) ps).close).1 = CloseRes.ok none →
      (mwWriteAll (NewMultiWriter sinks) ps).received = sinks.map fun _ => ps) := by
  constructor
  · intro st p hop
    rw [MWState.write, hop]
    simp
  · intro hcl
    have hst := mwWriteAll_open ps (NewMultiWriter sinks) rfl
    rw [hst] at hcl ⊢
    unfold MWState.received
    by_cases hps : ps.isEmpty
    · have : ps = [] := by simpa [List.isEmpty_iff] using hps
      subst this
      unfold NewMultiWriter
      simp [mwWorkerRun]
    · have hne : ps.isEmpty = false := by
        cases hx : ps.isEmpty
        · rfl
        · exact absurd hx hps
      unfold NewMultiWriter at hcl
      simp only [hne, Bool.not_false, Bool.false_or] at hcl
      rw [MWClose_first sinks ([] ++ ps) false] at hcl
      rw [CloseRes.ok.injEq] at hcl
      have hnil : (sinks.map fun s => (mwWorkerRun s ([] ++ ps)).2).filterMap id = [] := by
        simpa [List.head?_eq_none_iff] using hcl
      rw [List.filterMap_eq_nil_iff] at hnil
      apply List.map_congr_left
      intro s hs
      have herr : (mwWorkerRun s ([] ++ ps)).2 = none := by
        have := hnil ((mwWorkerRun s ([] ++ ps)).2) (by
          apply List.mem_map_of_mem
          exact hs)
        simpa using this
      have := mwWorkerRun_ok s ([] ++ ps) herr
      simpa using this

/-- Witness for C4: two well-behaved sinks, two payloads; `Close`
returns nil and both sinks received both payloads in order. -/
theorem multiwriter_delivery_ok_witness :
    (mwWriteAll (NewMultiWriter [sinkOk, sinkOk]) [[1], [2, 3]]).received =
      [sinkOk, sinkOk].map fun _ => [[1], [2, 3]] :=
  (multiwriter_delivery_ok [sinkOk, sinkOk] [[1], [2, 3]]).2 rfl

/-- C5 counterexample: `Close` on an already-closed `MultiWriter` that
had been written to does not return the closed error — it re-closes the
worker queues and panics. -/
theorem multiwriter_double_close_cex :
    (((mwWriteAll (NewMultiWriter [sinkOk]) [[1]]).close).2.close).1 =
      CloseRes.panic ∧
    CloseRes.panic ≠ CloseRes.ok (some Err.closed) := by
  refine ⟨rfl, by decide⟩

/-- C5 (amended): the `closed` flag is consulted only by `Write` (which
returns the closed error); `Close` never checks it.  A second `Close`
on an instance that was written to (hence inited) repeats the shutdown
sequence and panics re-closing the worker queues (or, with zero sinks,
the error channel); a second `Close` on a never-written instance
returns nil, not the closed error. -/
theorem multiwriter_double_close_behavior :
    (∀ (st : MWState) (p : List Nat), st.closed = true →
      st.write p = (0, some Err.closed, st)) ∧
    (∀ (sinks : List MWSink) (ps : List (List Nat)), ps ≠ [] →
      (((mwWriteAll (NewMultiWriter sinks) ps).close).2.close).1 = CloseRes.panic) ∧
    (∀ sinks : List MWSink,
      (((NewMultiWriter sinks).close).2.close).1 = CloseRes.ok none) := by
  refine ⟨?_, ?_, ?_⟩
  · intro st p hcl
    rw [MWState.write, hcl]
    simp
  · intro sinks ps hps
    have hne : ps.isEmpty = false := by
      cases ps with
      | nil => exact absurd rfl hps
      | cons a l => rfl
    have hst := mwWriteAll_open ps (NewMultiWriter sinks) rfl
    rw [hst]
    unfold NewMultiWriter
    simp only [hne, Bool.not_false, Bool.false_or]
    rw [MWClose_first sinks ([] ++ ps) false]
    exact MWClose_again_panic sinks ([] ++ ps) true
  · intro sinks
    show ((MWState.close ⟨sinks, [], false, false, false, false⟩).2.close).1 =
      CloseRes.ok none
    rw [MWClose_uninited sinks [] false false false]
    rw [MWClose_uninited sinks [] true false false]

theorem bSegments_nil (sz : Nat) : bSegments sz [] = [] := by
  rw [bSegments.eq_def]
  by_cases h0 : sz = 0
  · simp [h0]
  · rw [dif_neg h0]
    rw [dif_pos (by simpa using Nat.pos_of_ne_zero h0)]
    simp

theorem bSegments_last (sz : Nat) (src : List Nat) (h0 : sz ≠ 0)
    (h : src.length < sz) (hne : src.isEmpty = false) :
    bSegments sz src = [src] := by
  rw [bSegments.eq_def]
  rw [dif_neg h0, dif_pos h]
  simp [hne]

theorem bSegments_step (sz : Nat) (src : List Nat) (h0 : sz ≠ 0)
    (h : ¬ src.length < sz) :
    bSegments sz src = src.take sz :: bSegments sz (src.drop sz) := by
  rw [bSegments.eq_def]
  rw [dif_neg h0, dif_neg h]

/-- C7 counterexample: on a source that ends cleanly, `Broadcast`
returns nil, but the value delivered into the still-registered reader's
error slot is `io.EOF` (the pump's read error), not nil as the claim
states — indeed a nil in the slot would be indistinguishable from
"no terminal condition yet" at the reader. -/
theorem broadcast_terminal_slot_cex :
    broadcastGo false Err.eof 8 2 [5] [NewBReader] =
      some (none, [⟨[[5]], true, [some Err.eof], false, [], none⟩]) ∧
    [some Err.eof] ≠ [(none : Option Err)] := by
  refine ⟨rfl, by decide⟩

/-- C7 (amended): a non-aborted `Broadcast` returns nil when the source
ends cleanly and the source's error otherwise, and on return every
still-registered reader's data queue holds the full chunk sequence and
has been closed, with the terminal condition delivered into its error
slot as the pump's read error — `io.EOF` for a clean end of data, the
source error otherwise (and, degenerately, no delivery if the source
itself returned `ErrAborted`). -/
theorem broadcast_terminal_delivery (srcErr : Err) (sz : Nat) (hsz : 0 < sz) :
    ∀ fuel src rs, src.length < fuel →
      broadcastGo false srcErr sz fuel src rs =
        some (if srcErr = Err.eof then none else some srcErr,
              rs.map fun r =>
                { r with dataQ := r.dataQ ++ bSegments sz src,
                         dataClosed := true,
                         errQ := r.errQ ++
                           (if srcErr = Err.aborted then [] else [some srcErr]) }) := by
  intro fuel
  induction fuel with
  | zero =>
    intro src rs h
    omega
  | succ fuel ih =>
    intro src rs hfu
    have hsz' : sz ≠ 0 := by omega
    by_cases hsrc : src.isEmpty
    · have hsrc' : src = [] := by simpa [List.isEmpty_iff] using hsrc
      subst hsrc'
      rw [broadcastGo]
      rw [if_pos (show ([] : List Nat).isEmpty = true ∨ sz = 0 from Or.inl rfl)]
      rw [bSegments_nil]
      unfold deferBroadcast
      simp only [Option.some.injEq, Prod.mk.injEq]
      refine ⟨trivial, ?_⟩
      apply List.map_congr_left
      intro r hr
      simp
    · have hne : ¬ (src.isEmpty = true ∨ sz = 0) := by
        push_neg
        constructor
        · simpa using hsrc
        · exact hsz'
      rw [broadcastGo]
      rw [if_neg hne]
      rw [if_neg (by simp)]
      by_cases hlast : src.length < sz
      · rw [if_pos hlast]
        have htake : src.take sz = src := List.take_of_length_le (le_of_lt hlast)
        rw [bSegments_last sz src hsz' hlast (by simpa using hsrc)]
        unfold deferBroadcast
        rw [List.map_map]
        simp only [Option.some.injEq, Prod.mk.injEq]
        refine ⟨trivial, ?_⟩
        apply List.map_congr_left
        intro r hr
        simp [htake]
      · rw [if_neg hlast]
        have hdrop : (src.drop sz).length < fuel := by
          have h2 := List.length_drop sz src
          omega
        rw [ih (src.drop sz) (rs.map fun r => { r with dataQ := r.dataQ ++ [src.take sz] }) hdrop]
        rw [bSegments_step sz src hsz' hlast]
        rw [List.map_map]
        simp only [Option.some.injEq, Prod.mk.injEq]
        refine ⟨trivial, ?_⟩
        apply List.map_congr_left
        intro r hr
        simp

/-- Witness for C7: one reader, a 5-byte clean source read in 2-byte
chunks: `Broadcast` returns nil, the reader's queue holds the three
chunks and is closed, and its error slot holds `io.EOF`. -/
theorem broadcast_terminal_delivery_witness :
    broadcastGo false Err.eof 2 6 [1, 2, 3, 4, 5] [NewBReader] =
      some (if Err.eof = Err.eof then none else some Err.eof,
        [NewBReader].map fun r =>
          { r with dataQ := r.dataQ ++ bSegments 2 [1, 2, 3, 4, 5],
                   dataClosed := true,
                   errQ := r.errQ ++
                     (if Err.eof = Err.aborted then [] else [some Err.eof]) }) :=
  broadcast_terminal_delivery Err.eof 2 (by decide) 6 [1, 2, 3, 4, 5]
    [NewBReader] (by decide)

/-- C8 counterexample: after `Abort`, a `Read` that can be satisfied
from the reader's reassembly buffer returns those buffered bytes with a
nil error — the `select` that watches the abort channel is never reached
because the drain-loop guard is already false — contradicting both
"every Read returns the aborted condition" and "buffered bytes are
discarded rather than partially delivered".  Also, `Abort` before a
`Broadcast` of an empty source makes `Broadcast` return nil, not the
aborted error: with nothing read, no enqueue `select` ever runs. -/
theorem broadcast_abort_buffered_cex :
    brRead true 1 ⟨[], false, [], false, [7, 8], none⟩ =
      some ([7], none, ⟨[], false, [], false, [8], none⟩) ∧
    (([7] : List Nat), (none : Option Err)) ≠ (([] : List Nat), some Err.aborted) ∧
    broadcastGo true Err.eof 8 1 ([] : List Nat) [NewBReader] =
      some (none, [⟨[], true, [some Err.eof], false, [], none⟩]) ∧
    (none : Option Err) ≠ some Err.aborted := by
  refine ⟨?_, by decide, rfl, by decide⟩
  unfold brRead
  rw [if_neg (by decide)]
  rw [brReadLoop.eq_def]
  rw [if_pos (by decide)]
  unfold brDeliver
  rw [if_pos (by decide)]
  rfl

/-- C8 (amended): after `Abort` (here: set before `Broadcast` starts,
with the abort branch winning every `select`), `Broadcast` returns the
aborted error provided the source yields at least one chunk and at
least one reader is registered (an empty source, or no readers, make it
return the terminal result without ever consulting the abort channel),
and under this schedule no chunk is enqueued; a `Read` that must
consult the queue returns the aborted condition and records it so every
subsequent `Read` returns it immediately; but a `Read` wholly
satisfiable from the reassembly buffer still returns those buffered
bytes with a nil error. -/
theorem broadcast_abort_behavior :
    (∀ (srcErr : Err) (sz : Nat) (src : List Nat) (rs : List BReader),
      0 < sz → src.isEmpty = false → rs.isEmpty = false →
      broadcastGo true srcErr sz (src.length + 1) src rs =
        some (some Err.aborted,
              deferBroadcast (if src.length < sz then some srcErr else none) rs)) ∧
    (∀ (n : Nat) (br : BReader), br.buf.length < n →
      br.last ≠ some Err.closed → br.last ≠ some Err.aborted →
      brRead true n br =
        some ([], some Err.aborted, { br with last := some Err.aborted })) ∧
    (∀ (a : Bool) (m : Nat) (br : BReader), br.last = some Err.aborted →
      brRead a m br = some ([], some Err.aborted, br)) ∧
    (∀ (n : Nat) (br : BReader), 0 < n → n ≤ br.buf.length →
      br.last ≠ some Err.closed → br.last ≠ some Err.aborted →
      brRead true n br =
        some (br.buf.take n, none, { br with buf := br.buf.drop n })) := by
  refine ⟨?_, ?_, ?_, ?_⟩
  · intro srcErr sz src rs hsz hsrc hrs
    rw [broadcastGo]
    rw [if_neg (by
      push_neg
      constructor
      · simp [hsrc]
      · omega)]
    rw [if_pos (show (true = true) ∧ rs.isEmpty = false from ⟨rfl, hrs⟩)]
  · intro n br hlen hc ha
    unfold brRead
    rw [if_neg (by
      push_neg
      exact ⟨hc, ha⟩)]
    rw [brReadLoop.eq_def]
    rw [if_neg (by omega)]
    rw [if_pos rfl]
  · intro a m br h
    unfold brRead
    rw [if_pos (Or.inr h), h]
  · intro n br hn hlen hc ha
    unfold brRead
    rw [if_neg (by
      push_neg
      exact ⟨hc, ha⟩)]
    rw [brReadLoop.eq_def]
    rw [if_pos hlen]
    unfold brDeliver
    by_cases hlt : n < br.buf.length
    · rw [if_pos hlt]
    · rw [if_neg hlt]
      have hbe : br.buf.isEmpty = false := by
        cases hb : br.buf with
        | nil => rw [hb] at hlen; simp at hlen; omega
        | cons a l => rfl
      rw [if_pos hbe]
      have heq : br.buf.length = n := by omega
      have htake : br.buf.take n = br.buf := List.take_of_length_le (by omega)
      have hdrop : br.buf.drop n = [] := List.drop_eq_nil_of_le (by omega)
      rw [htake, hdrop]

/-- Witness for C8: a concrete pre-aborted broadcast of a one-chunk
source to one reader returns the aborted error delivering nothing, a
read against an empty buffer returns aborted and latches, a subsequent
read returns aborted again, and a buffered read still delivers. -/
theorem broadcast_abort_behavior_witness :
    broadcastGo true Err.eof 4 3 [1, 2] [NewBReader] =
      some (some Err.aborted,
            deferBroadcast (if ([1, 2] : List Nat).length < 4 then some Err.eof
              else none) [NewBReader]) ∧
    brRead true 1 NewBReader =
      some ([], some Err.aborted, { NewBReader with last := some Err.aborted }) ∧
    brRead true 1 ⟨[], false, [], false, [], some Err.aborted⟩ =
      some ([], some Err.aborted, ⟨[], false, [], false, [], some Err.aborted⟩) ∧
    brRead true 2 ⟨[], false, [], false, [5, 6], none⟩ =
      some (([5, 6] : List Nat).take 2, none,
            ⟨[], false, [], false, ([5, 6] : List Nat).drop 2, none⟩) := by
  refine ⟨?_, ?_, ?_, ?_⟩
  · exact broadcast_abort_behavior.1 Err.eof 4 [1, 2] [NewBReader]
      (by decide) rfl rfl
  · exact broadcast_abort_behavior.2.1 1 NewBReader (by decide)
      (by decide) (by decide)
  · exact broadcast_abort_behavior.2.2.1 true 1
      ⟨[], false, [], false, [], some Err.aborted⟩ rfl
  · exact broadcast_abort_behavior.2.2.2 2 ⟨[], false, [], false, [5, 6], none⟩
      (by decide) (by decide) (by decide) (by decide)

/-- Witness for C5: a concrete written-then-closed instance whose second
`Close` panics, and a never-written instance whose second `Close`
returns nil. -/
theorem multiwriter_double_close_behavior_witness :
    ((NewMultiWriter [sinkOk]).write [1] = (1, some Err.closed,
        NewMultiWriter [sinkOk]) ∨
      (((mwWriteAll (NewMultiWriter [sinkOk]) [[1]]).close).2.close).1 =
        CloseRes.panic) ∧
    (((NewMultiWriter [sinkFail]).close).2.close).1 = CloseRes.ok none :=
  ⟨Or.inr (multiwriter_double_close_behavior.2.1 [sinkOk] [[1]] (by decide)),
   multiwriter_double_close_behavior.2.2 [sinkFail]⟩

end Extio
